import Mathlib

set_option autoImplicit false

/-!
# A verification development for the `libwebview` Edge adapter

Shallow embedding of `src/native/src/platform/edge.cpp` and
`src/native/include/webview.hpp`: the inbound message dispatch, the window
size-constraint handling, the navigation-completed handler, the run loop
with its work queue, the URL classification performed by `Edge::run`, the
environment configuration built by the constructor, and the script runtime
shim (`Queue`, `IndexAllocator`, `WebView`) injected by `Edge::run`.

JSON encoding/decoding is consumed as an opaque parse/serialize capability
(per the specification): inbound payloads are modelled as `Option Json`,
where `none` is a payload that fails to parse as JSON at all.
-/

namespace libwebview

/-- JSON values as seen by the adapter's message handler. Integer literals
are `numInt`; a number literal that is not an integer (e.g. `1.5`) is
`numOther` and carries its lexical form. Objects are field lists in
document order. -/
inductive Json where
  | null
  | boolVal (b : Bool)
  | numInt (n : Int)
  | numOther (lit : String)
  | strVal (s : String)
  | arrVal (elems : List Json)
  | objVal (fields : List (String × Json))

mutual

/-- Compact serialization, as `nlohmann::json::dump()` produces for the
`args` payload (`edge.cpp`: `message_data["args"].dump()`). -/
def Json.dump : Json → String
  | .null => "null"
  | .boolVal true => "true"
  | .boolVal false => "false"
  | .numInt n => toString n
  | .numOther lit => lit
  | .strVal s => "\"" ++ s ++ "\""
  | .arrVal elems => "[" ++ Json.dumpElems elems ++ "]"
  | .objVal fields => "\x7b" ++ Json.dumpFields fields ++ "\x7d"

/-- Serialization of an array body: elements joined by commas. -/
def Json.dumpElems : List Json → String
  | [] => ""
  | [e] => Json.dump e
  | e :: e2 :: rest => Json.dump e ++ "," ++ Json.dumpElems (e2 :: rest)

/-- Serialization of an object body: quoted keys, colon, value, joined by
commas. -/
def Json.dumpFields : List (String × Json) → String
  | [] => ""
  | [(k, v)] => "\"" ++ k ++ "\":" ++ Json.dump v
  | (k, v) :: f2 :: rest => "\"" ++ k ++ "\":" ++ Json.dump v ++ "," ++ Json.dumpFields (f2 :: rest)

end

/-- Field access `document["key"]` on a JSON document: only objects have
fields, and the first field with the key wins. -/
def Json.objLookup : Json → String → Option Json
  | .objVal fields, key => fields.lookup key
  | _, _ => none

/-- `simdjson` `get_uint64()`: succeeds exactly on integer values
representable as a C++ `uint64_t` (the source stores the result in a
`uint64_t index`). -/
def Json.getUint64 : Json → Option Nat
  | .numInt n => if 0 ≤ n ∧ n < 2 ^ 64 then some n.toNat else none
  | _ => none

/-- `simdjson` `get_string()`: succeeds exactly on string values. -/
def Json.getString : Json → Option String
  | .strVal s => some s
  | _ => none

/-- The callback registry `callbacks`: function name to an opaque handler,
modelled by a handler identifier. `std::map` lookup is exact-name. -/
def CallbackRegistry : Type := List (String × Nat)

/-- The observable outcome of `Edge::webviewMessageReceived`: the HRESULT
returned to the engine and the list of callback invocations performed,
each carrying (handler, index, serialized args payload). -/
structure DispatchResult where
  hresult : Int
  calls : List (Nat × Nat × String)
  deriving DecidableEq

/-- `document["index"].get_uint64()`: field access followed by the
`uint64` extraction. -/
def extractIndex (document : Json) : Option Nat :=
  (document.objLookup "index").bind Json.getUint64

/-- `document["func"].get_string()`: field access followed by the string
extraction. -/
def extractFunc (document : Json) : Option String :=
  (document.objLookup "func").bind Json.getString

/-- The dispatch tail of `Edge::webviewMessageReceived` once `index` and
`func` are extracted: serialize `message_data["args"]` (a missing field
dumps as `null`) and, if a handler is registered under `func`, invoke it
once with `(index, args payload)`. -/
def dispatchCall (callbacks : List (String × Nat)) (document : Json)
    (index : Nat) (funcName : String) : DispatchResult :=
  let argsData := ((document.objLookup "args").getD Json.null).dump
  match callbacks.lookup funcName with
  | some handler => { hresult := 0, calls := [(handler, index, argsData)] }
  | none => { hresult := 0, calls := [] }

/-- `Edge::webviewMessageReceived` (edge.cpp lines 104-141). The inbound
payload is the parsed JSON document (`none` when the payload is not valid
JSON, in which case every field extraction errors). Extraction of `index`
(`get_uint64`) or `func` (`get_string`) failing returns `S_OK` (0) early
with no invocation; otherwise the message is dispatched. -/
def webviewMessageReceived (callbacks : List (String × Nat)) (msg : Option Json) :
    DispatchResult :=
  match msg with
  | none => { hresult := 0, calls := [] }
  | some document =>
    match extractIndex document with
    | none => { hresult := 0, calls := [] }
    | some index =>
      match extractFunc document with
      | none => { hresult := 0, calls := [] }
      | some funcName => dispatchCall callbacks document index funcName

/-- A payload is malformed for the handler when it is not valid JSON, or
`index` is missing or not a `uint64`-representable integer, or `func` is
missing or not a string. -/
def malformedPayload (msg : Option Json) : Prop :=
  match msg with
  | none => True
  | some document => extractIndex document = none ∨ extractFunc document = none

instance : (msg : Option Json) → Decidable (malformedPayload msg)
  | none => isTrue trivial
  | some _ => inferInstanceAs (Decidable (_ ∨ _))

/-- The environment configuration assembled by the `Edge` constructor
(edge.cpp lines 197-249): additional browser arguments, the per-app user
data folder under `%APPDATA%`, and the two settings toggled by
`debug_mode`. -/
structure EdgeConfig where
  browserArguments : String
  userDataFolder : String
  devToolsEnabled : Bool
  defaultContextMenusEnabled : Bool
  deriving DecidableEq

/-- The configuration the `Edge` constructor passes to the engine:
`put_AdditionalBrowserArguments(L"--disable-web-security")` is executed
on every construction, while only the dev-tools and context-menu settings
consult `debug_mode`. -/
def edgeEnvironmentConfig (appData appName : String) (debug_mode : Bool) : EdgeConfig :=
  { browserArguments := "--disable-web-security"
  , userDataFolder := appData ++ "/" ++ appName
  , devToolsEnabled := debug_mode
  , defaultContextMenusEnabled := debug_mode }

/-! ## Navigation-completed handler (`Edge::webviewNavigationComplete`) -/

/-- The window/controller actions that `Edge::webviewNavigationComplete`
can perform on its first run. -/
inductive NavAction where
  | showWindow
  | updateWindow
  | setFocus
  | controllerSetVisible
  | controllerPutBounds
  deriving DecidableEq

/-- The full action sequence of a first navigation completion (edge.cpp
lines 87-99): `ShowWindow`, `UpdateWindow`, `SetFocus`,
`put_IsVisible(TRUE)`, `put_Bounds(client rect)`. -/
def firstNavigationActions : List NavAction :=
  [.showWindow, .updateWindow, .setFocus, .controllerSetVisible, .controllerPutBounds]

/-- `Edge::webviewNavigationComplete` (edge.cpp lines 84-102): guarded by
the `isInitialized` flag. Returns the new flag value and the actions
performed on this event. -/
def webviewNavigationComplete (isInitialized : Bool) : Bool × List NavAction :=
  if !isInitialized then
    (true, firstNavigationActions)
  else
    (isInitialized, [])

/-- A run of `n` navigation-completed events against the adapter's flag,
collecting the actions each event performs. The flag starts `false` at
construction (`is_initialized(false)`). -/
def runNavigationEvents : Bool → Nat → List (List NavAction)
  | _, 0 => []
  | flag, n + 1 =>
      let (flag', actions) := webviewNavigationComplete flag
      actions :: runNavigationEvents flag' n

/-! ## URL classification in `Edge::run` -/

/-- `std::string_view::starts_with`: a character-level prefix test. -/
def strStartsWith (s p : String) : Bool :=
  p.data.isPrefixOf s.data

/-- `std::filesystem` path append `current_path / url_path`, rendered with
`generic_string()` (forward slashes): a rooted right operand replaces the
left path, otherwise the right operand is appended after a separator. -/
def filesystemConcat (cwd rel : String) : String :=
  if strStartsWith rel "/" then rel else cwd ++ "/" ++ rel

/-- The URL `Edge::run` navigates to (edge.cpp lines 385-394): strings
starting with `http://` or `https://` pass through unchanged; anything
else is treated as a filesystem path appended to the current working
directory and wrapped as a `file:///` URL. -/
def navigationTarget (cwd url_path : String) : String :=
  if strStartsWith url_path "http://" || strStartsWith url_path "https://" then
    url_path
  else
    "file:///" ++ filesystemConcat cwd url_path

/-! ## Size constraints (`Edge::set_max_size`, `WM_GETMINMAXINFO`) -/

/-- The adapter state consulted by the sizing logic: the stored DPI-scaled
min/max track sizes and whether the window style has `WS_MAXIMIZEBOX`. -/
structure EdgeWindowState where
  minWidth : Nat
  minHeight : Nat
  maxWidth : Nat
  maxHeight : Nat
  maximizeBox : Bool
  deriving DecidableEq

/-- The `MINMAXINFO` record the `WM_GETMINMAXINFO` handler writes into;
fields it does not write keep their incoming (system-default) values. -/
structure MinMaxInfo where
  minTrackX : Nat
  minTrackY : Nat
  maxTrackX : Nat
  maxTrackY : Nat
  deriving DecidableEq

/-- `width * static_cast<uint32_t>(scale) / 100` (edge.cpp lines
273-274, 279-280): the multiplication is C++ `uint32_t` arithmetic and
wraps modulo `2^32` before the division. -/
def scaleU32 (scale dim : Nat) : Nat :=
  dim * scale % 2 ^ 32 / 100

/-- `Edge::set_max_size` (edge.cpp lines 252-275): for `(0,0)` the
`WS_MAXIMIZEBOX` style bit is set (if clear), for any other pair it is
cleared (if set); then the DPI-scaled values `width*scale/100`,
`height*scale/100` — computed in wrapping `uint32_t` arithmetic — are
stored. -/
def set_max_size (scale : Nat) (s : EdgeWindowState) (width height : Nat) :
    EdgeWindowState :=
  let s1 :=
    if width = 0 ∧ height = 0 then
      if !s.maximizeBox then { s with maximizeBox := true } else s
    else
      if s.maximizeBox then { s with maximizeBox := false } else s
  { s1 with maxWidth := scaleU32 scale width, maxHeight := scaleU32 scale height }

/-- `Edge::set_min_size` (edge.cpp lines 277-281): stores the DPI-scaled
minimum (wrapping `uint32_t` arithmetic), with no style change. -/
def set_min_size (scale : Nat) (s : EdgeWindowState) (width height : Nat) :
    EdgeWindowState :=
  { s with minWidth := scaleU32 scale width, minHeight := scaleU32 scale height }

/-- The `WM_GETMINMAXINFO` arm of `Edge::windowProcedure` (edge.cpp lines
67-79): the min track size is written unconditionally from the stored
minimum; the max track size is written from the stored maximum only when
the stored pair differs from `(0,0)`. -/
def wmGetMinMaxInfo (s : EdgeWindowState) (mmi : MinMaxInfo) : MinMaxInfo :=
  let mmi1 := { mmi with minTrackX := s.minWidth, minTrackY := s.minHeight }
  if (s.maxWidth, s.maxHeight) ≠ ((0 : Nat), (0 : Nat)) then
    { mmi1 with maxTrackX := s.maxWidth, maxTrackY := s.maxHeight }
  else
    mmi1

/-! ## The public `App::bind` (webview.hpp lines 49-53) -/

/-- `App::bind` as it stands in webview.hpp: its body is empty — the call
`webview_bind(app, std::string(name).c_str(), )` is commented out and
unfinished — so it performs no registration and the registry is returned
unchanged. -/
def App.bind (registry : List (String × Nat)) (_name : String) (_handler : Nat) :
    List (String × Nat) :=
  registry

/-! ## The injected script runtime shim (edge.cpp lines 291-381)

The JavaScript `Queue` stores its elements in a dictionary keyed by a
monotonically growing `head`/`tail` pair; `elements` is modelled as a map
from those integer keys, a missing key being `none` (JavaScript
`undefined`). -/

/-- The `Queue` class of the injected script. -/
structure Queue where
  elements : Nat → Option Nat
  head : Nat
  tail : Nat

/-- `new Queue()`: empty dictionary, `head = tail = 0`. -/
def Queue.init : Queue :=
  { elements := fun _ => none, head := 0, tail := 0 }

/-- `Queue.enqueue`: store at `tail`, increment `tail`. -/
def Queue.enqueue (q : Queue) (e : Nat) : Queue :=
  { elements := fun i => if i = q.tail then some e else q.elements i
  , head := q.head
  , tail := q.tail + 1 }

/-- `Queue.dequeue`: read the entry at `head` (`undefined`, i.e. `none`,
when the queue is empty), delete it, increment `head`. -/
def Queue.dequeue (q : Queue) : Option Nat × Queue :=
  (q.elements q.head,
   { elements := fun i => if i = q.head then none else q.elements i
   , head := q.head + 1
   , tail := q.tail })

/-- The live entries of a queue, front to back. -/
def Queue.toList (q : Queue) : List Nat :=
  (List.range (q.tail - q.head)).filterMap (fun k => q.elements (q.head + k))

/-- `new IndexAllocator(count)`: a queue seeded with `0, 1, …, count-1` in
order. -/
def IndexAllocator.init (count : Nat) : Queue :=
  (List.range count).foldl Queue.enqueue Queue.init

/-- `WebView.MAX_RESULTS` in the injected script. -/
def MAX_RESULTS : Nat := 100000

/-- The state of the injected `WebView` object: `results` maps an in-flight
correlation index to its pending resolve/reject pair, `events` maps an
event name to its registered handler, `allocator` is the index free list.
The pair created by each `invoke` is a fresh pair of closures; their
identity is modelled by the serial number `nextPromise` (a ghost counter
that stands for closure identity and affects nothing else). Handlers and
pairs are opaque and modelled by identifiers. -/
structure WebViewShim where
  results : Nat → Option Nat
  events : String → Option Nat
  allocator : Queue
  nextPromise : Nat

/-- `new WebView()` with allocator capacity `count` (the script constructs
it with `WebView.MAX_RESULTS`). -/
def WebViewShim.init (count : Nat) : WebViewShim :=
  { results := fun _ => none
  , events := fun _ => none
  , allocator := IndexAllocator.init count
  , nextPromise := 0 }

/-- `WebView.__free_result(index)` (edge.cpp lines 351-353): returns the
index to the allocator's free list and nothing else. -/
def WebViewShim.freeResult (s : WebViewShim) (index : Nat) : WebViewShim :=
  { s with allocator := s.allocator.enqueue index }

/-- `WebView.event(event, func)` (edge.cpp lines 355-357). -/
def WebViewShim.event (s : WebViewShim) (eventName : String) (handler : Nat) :
    WebViewShim :=
  { s with events := fun e => if e = eventName then some handler else s.events e }

/-- The observable steps of the shim protocol: allocation of a correlation
index, the outbound `postMessage`, and the steps of result completion. -/
inductive ShimEvent where
  | alloc (index : Nat)
  | post (index : Nat) (func : String)
  | locate (index : Nat) (pair : Nat)
  | settle (pair : Nat) (resolved : Bool)
  | removePending (index : Nat)
  | free (index : Nat)
  deriving DecidableEq

/-- `WebView.invoke(name, ...args)` (edge.cpp lines 359-377): allocate an
index from the free list, register a fresh pending pair under it, and post
the serialized `{index, func, args}` message. `none` when the free list is
exhausted (the allocator dequeues `undefined`; behavior past that point is
undefined in the source and excluded by the claims). -/
def WebViewShim.invoke (s : WebViewShim) (name : String) :
    Option (WebViewShim × List ShimEvent) :=
  match s.allocator.dequeue with
  | (none, _) => none
  | (some index, q) =>
      some
        ({ results := fun i => if i = index then some s.nextPromise else s.results i
         , events := s.events
         , allocator := q
         , nextPromise := s.nextPromise + 1 },
         [.alloc index, .post index name])

/-- Modelled from the spec: the host-issued completion script. Only the
shim's `__free_result` appears in the sources under review; the script the
host executes to deliver an outcome (spec §4.4, §6 "Inbound completion")
is not among them. Per the spec it must "locate the pending pair by index,
settle it (resolve or reject per host-supplied outcome), remove it from
the mapping, and return the index to the free list — in that order". The
final step is `WebViewShim.freeResult`, embedded from the injected
script's `__free_result`. `none` when no pair is pending at `index`. -/
def WebViewShim.completeResult (s : WebViewShim) (index : Nat) (resolved : Bool) :
    Option (WebViewShim × List ShimEvent) :=
  match s.results index with
  | none => none
  | some pair =>
      let removed : WebViewShim :=
        { s with results := fun i => if i = index then none else s.results i }
      some (removed.freeResult index,
            [.locate index pair, .settle pair resolved, .removePending index, .free index])

/-- The operations driving the shim protocol: a page-script `invoke` and a
host-delivered completion. -/
inductive ShimOp where
  | invoke (name : String)
  | complete (index : Nat) (resolved : Bool)

/-- One shim protocol step. -/
def shimStep (s : WebViewShim) : ShimOp → Option (WebViewShim × List ShimEvent)
  | .invoke name => s.invoke name
  | .complete index resolved => s.completeResult index resolved

/-- A run of shim operations, accumulating the emitted events. `none` when
some step fails (pool exhaustion, or completion of a non-pending index). -/
def shimRun : WebViewShim → List ShimOp → Option (WebViewShim × List ShimEvent)
  | s, [] => some (s, [])
  | s, op :: ops =>
      match shimStep s op with
      | none => none
      | some (s', evs) =>
          match shimRun s' ops with
          | none => none
          | some (s'', tr) => some (s'', evs ++ tr)

/-- The event trace of a run. -/
def shimTrace (s : WebViewShim) (ops : List ShimOp) : Option (List ShimEvent) :=
  (shimRun s ops).map Prod.snd

/-- Checks a trace against the allocator discipline, carrying the list of
currently in-flight indices: every `alloc` must be of an index not
currently in flight (no two simultaneously in-flight calls share an
index), and every `free` must be of an index currently in flight (an index
is returned to the free list exactly once per allocation, at its
completion). -/
def goodTrace : List Nat → List ShimEvent → Bool
  | _, [] => true
  | inFlight, .alloc i :: tr => !inFlight.contains i && goodTrace (inFlight ++ [i]) tr
  | inFlight, .free i :: tr => inFlight.contains i && goodTrace (inFlight.erase i) tr
  | inFlight, _ :: tr => goodTrace inFlight tr

/-! ## The `Running` message loop (`Edge::run`, edge.cpp lines 396-436) -/

/-- A native message as the loop's `switch` distinguishes it: `WM_QUIT`,
or any other message together with whether `msg.hwnd` is non-null (the
loop translates/dispatches only messages with a window handle). -/
inductive NativeMsg where
  | quit
  | windowMsg (msgId : Nat) (hasHwnd : Bool)
  deriving DecidableEq

/-- The observable actions of one loop iteration: dispatching a native
message, executing a work item (`element.first()`), releasing its
associated resource (`delete element.second`), and the idle callback. -/
inductive LoopEvent where
  | dispatched (msgId : Nat)
  | workExecuted (item : Nat)
  | resourceReleased (item : Nat)
  | idleInvoked
  deriving DecidableEq

/-- The environment of one loop iteration: what `PeekMessage` finds
(`none` when no native message is pending), and the work items other
threads pushed onto `main_queue` since the last iteration, in order. -/
structure LoopInput where
  pending : Option NativeMsg
  arrivedWork : List Nat
  deriving DecidableEq

/-- The inner `while (!main_queue.empty())` drain: pop the front item,
execute it, release its resource, repeat until the queue is empty. -/
def drainQueue : List Nat → List LoopEvent
  | [] => []
  | item :: rest => .workExecuted item :: .resourceReleased item :: drainQueue rest

/-- One iteration of the `while (running)` loop: with a pending message,
`WM_QUIT` clears `running` and anything else is dispatched when it has a
window handle; with no pending message, the work queue is drained entirely
and then `idle.first` — when registered — is called once. Returns
(running flag, remaining work queue, events of this iteration). -/
def loopIteration (idle : Option Nat) (queue : List Nat) (inp : LoopInput) :
    Bool × List Nat × List LoopEvent :=
  let queue := queue ++ inp.arrivedWork
  match inp.pending with
  | some .quit => (false, queue, [])
  | some (.windowMsg msgId hasHwnd) =>
      (true, queue, if hasHwnd then [.dispatched msgId] else [])
  | none =>
      (true, [],
       drainQueue queue ++ match idle with
                           | some _ => [LoopEvent.idleInvoked]
                           | none => [])

/-- The loop over a stream of iteration environments, emitting each
iteration's events; a quit message ends the run with no further
iterations. (The stream running out models observing finitely many
iterations.) -/
def edgeRun (idle : Option Nat) : List Nat → List LoopInput → List (List LoopEvent)
  | _, [] => []
  | queue, inp :: inps =>
      let (running, queue', evs) := loopIteration idle queue inp
      evs :: (if running then edgeRun idle queue' inps else [])

/-! ## Concrete states used to instantiate theorems with hypotheses -/

/-- A shim state with one in-flight index, used to instantiate the
completion-ordering theorem. -/
def oneInFlightShim : WebViewShim :=
  { results := fun i => if i = 0 then some 7 else none
  , events := fun _ => none
  , allocator := Queue.init
  , nextPromise := 8 }

/-- A concrete sizing state used to instantiate the max-size theorem. -/
def sampleWindowState : EdgeWindowState :=
  { minWidth := 300, minHeight := 200, maxWidth := 0, maxHeight := 0, maximizeBox := false }

/-- A concrete incoming `MINMAXINFO`, with recognizable system-default max
track values, used to instantiate the max-size theorem. -/
def sampleMinMaxInfo : MinMaxInfo :=
  { minTrackX := 1, minTrackY := 2, maxTrackX := 111, maxTrackY := 222 }

/-! ## Queue abstraction lemmas -/

/-- Well-formedness of the dictionary-backed queue: `head ≤ tail`, every
key in `[head, tail)` is present, every key outside is absent. -/
structure Queue.WF (q : Queue) : Prop where
  hle : q.head ≤ q.tail
  hin : ∀ i, q.head ≤ i → i < q.tail → (q.elements i).isSome = true
  hout : ∀ i, i < q.head ∨ q.tail ≤ i → q.elements i = none

theorem Queue.WF.initWF : Queue.init.WF where
  hle := Nat.le_refl 0
  hin := by intro i h1 h2; simp only [Queue.init] at h2; omega
  hout := by intro i _; rfl

theorem Queue.toList_init : Queue.init.toList = [] := rfl

theorem filterMap_congr_mem {α β : Type} {l : List α} {f g : α → Option β}
    (h : ∀ a ∈ l, f a = g a) : l.filterMap f = l.filterMap g := by
  induction l with
  | nil => rfl
  | cons a l ih =>
      simp only [List.filterMap_cons]
      rw [h a (List.mem_cons_self a l), ih (fun b hb => h b (List.mem_cons_of_mem a hb))]

theorem Queue.WF.enqueueWF {q : Queue} (hwf : q.WF) (e : Nat) : (q.enqueue e).WF where
  hle := by have := hwf.hle; simp only [Queue.enqueue]; omega
  hin := by
    intro i h1 h2
    simp only [Queue.enqueue] at *
    by_cases hi : i = q.tail
    · simp [hi]
    · simp only [if_neg hi]
      exact hwf.hin i h1 (by omega)
  hout := by
    intro i hi
    simp only [Queue.enqueue] at *
    have hne : i ≠ q.tail := by
      have := hwf.hle
      omega
    simp only [if_neg hne]
    exact hwf.hout i (by omega)

theorem Queue.toList_enqueue {q : Queue} (hwf : q.WF) (e : Nat) :
    (q.enqueue e).toList = q.toList ++ [e] := by
  have hle := hwf.hle
  simp only [Queue.toList, Queue.enqueue]
  have hlen : q.tail + 1 - q.head = (q.tail - q.head) + 1 := by omega
  rw [hlen, List.range_succ, List.filterMap_append]
  congr 1
  · apply filterMap_congr_mem
    intro k hk
    have hk' : k < q.tail - q.head := List.mem_range.mp hk
    have : q.head + k ≠ q.tail := by omega
    simp [this]
  · have : q.head + (q.tail - q.head) = q.tail := by omega
    simp [this]

theorem Queue.dequeue_some {q : Queue} {x : Nat} {q' : Queue} (hwf : q.WF)
    (h : q.dequeue = (some x, q')) : q'.WF ∧ q.toList = x :: q'.toList := by
  have hel : q.elements q.head = some x := congrArg Prod.fst h
  have hq' : q' = { elements := fun i => if i = q.head then none else q.elements i
                  , head := q.head + 1, tail := q.tail } := (congrArg Prod.snd h).symm
  have hlt : q.head < q.tail := by
    by_contra hcon
    have : q.elements q.head = none := hwf.hout q.head (Or.inr (by omega))
    rw [this] at hel
    exact Option.noConfusion hel
  subst hq'
  constructor
  · exact { hle := by simpa using hlt
            hin := by
              intro i h1 h2
              simp only at *
              have : i ≠ q.head := by omega
              simp only [if_neg this]
              exact hwf.hin i (by omega) h2
            hout := by
              intro i hi
              simp only at *
              by_cases hih : i = q.head
              · simp [hih]
              · simp only [if_neg hih]
                exact hwf.hout i (by omega) }
  · simp only [Queue.toList]
    have hlen : q.tail - q.head = (q.tail - (q.head + 1)) + 1 := by omega
    rw [hlen, List.range_succ_eq_map, List.filterMap_cons]
    simp only [Nat.add_zero, hel, List.filterMap_map]
    congr 1
    apply filterMap_congr_mem
    intro k _
    have : q.head + (k + 1) = q.head + 1 + k := by omega
    simp only [Function.comp, Nat.succ_eq_add_one, this]
    have hne : q.head + 1 + k ≠ q.head := by omega
    simp [hne]

theorem Queue.foldl_enqueue {l : List Nat} : ∀ {q : Queue}, q.WF →
    (l.foldl Queue.enqueue q).WF ∧ (l.foldl Queue.enqueue q).toList = q.toList ++ l := by
  induction l with
  | nil => intro q hwf; simpa using hwf
  | cons a l ih =>
      intro q hwf
      simp only [List.foldl_cons]
      obtain ⟨hwf', htl⟩ := ih (hwf.enqueueWF a)
      refine ⟨hwf', ?_⟩
      rw [htl, Queue.toList_enqueue hwf a, List.append_assoc]
      rfl

theorem IndexAllocator.init_WF (count : Nat) : (IndexAllocator.init count).WF :=
  (Queue.foldl_enqueue Queue.WF.initWF).1

theorem IndexAllocator.init_toList (count : Nat) :
    (IndexAllocator.init count).toList = List.range count := by
  have := (Queue.foldl_enqueue (l := List.range count) Queue.WF.initWF).2
  simpa [Queue.toList_init] using this

/-! ## The shim protocol invariant -/

/-- The protocol invariant tying a shim state to the list of in-flight
indices: the free list is well-formed, free-list entries and in-flight
indices are jointly duplicate-free, and an index is in flight exactly when
a pending pair is registered under it. -/
def ShimInv (s : WebViewShim) (inFlight : List Nat) : Prop :=
  s.allocator.WF ∧ (s.allocator.toList ++ inFlight).Nodup ∧
    ∀ i, i ∈ inFlight ↔ (s.results i).isSome = true

theorem contains_eq_decide_mem (l : List Nat) (a : Nat) :
    l.contains a = decide (a ∈ l) := by
  simp [List.contains, List.elem_eq_mem]

theorem shimStep_good {s : WebViewShim} {inFlight : List Nat} {op : ShimOp}
    {s' : WebViewShim} {evs : List ShimEvent}
    (hinv : ShimInv s inFlight) (h : shimStep s op = some (s', evs)) :
    ∃ inFlight', ShimInv s' inFlight' ∧
      ∀ tr, goodTrace inFlight (evs ++ tr) = goodTrace inFlight' tr := by
  obtain ⟨hwf, hnd, hiff⟩ := hinv
  cases op with
  | invoke name =>
    rcases hdeq : s.allocator.dequeue with ⟨o, q⟩
    cases o with
    | none => simp [shimStep, WebViewShim.invoke, hdeq] at h
    | some index =>
      simp only [shimStep, WebViewShim.invoke, hdeq, Option.some.injEq,
        Prod.mk.injEq] at h
      obtain ⟨hs', hevs⟩ := h
      subst hevs
      obtain ⟨hwfq, htl⟩ := Queue.dequeue_some hwf hdeq
      rw [htl] at hnd
      have hndc : index ∉ q.toList ++ inFlight ∧ (q.toList ++ inFlight).Nodup := by
        simpa [List.nodup_cons] using hnd
      have hnotin : index ∉ inFlight := fun hmem =>
        hndc.1 (List.mem_append_right _ hmem)
      refine ⟨inFlight ++ [index], ⟨?_, ?_, ?_⟩, ?_⟩
      · rw [← hs']
        exact hwfq
      · rw [← hs']
        show (q.toList ++ (inFlight ++ [index])).Nodup
        have hperm : List.Perm (q.toList ++ (inFlight ++ [index]))
            (index :: (q.toList ++ inFlight)) := by
          rw [← List.append_assoc]
          exact List.perm_append_singleton index (q.toList ++ inFlight)
        exact hperm.symm.nodup (by simpa using hnd)
      · intro i
        rw [← hs']
        show i ∈ inFlight ++ [index] ↔
          (if i = index then some s.nextPromise else s.results i).isSome = true
        simp only [List.mem_append, List.mem_singleton]
        by_cases hi : i = index
        · simp [hi]
        · simp only [hi, or_false, if_neg hi]
          exact hiff i
      · intro tr
        simp only [List.cons_append, List.nil_append, goodTrace]
        rw [contains_eq_decide_mem]
        simp [hnotin]
  | complete index resolved =>
    cases hres : s.results index with
    | none => simp [shimStep, WebViewShim.completeResult, hres] at h
    | some pair =>
      simp only [shimStep, WebViewShim.completeResult, WebViewShim.freeResult, hres,
        Option.some.injEq, Prod.mk.injEq] at h
      obtain ⟨hs', hevs⟩ := h
      subst hevs
      have hmem : index ∈ inFlight := (hiff index).mpr (by simp [hres])
      refine ⟨inFlight.erase index, ⟨?_, ?_, ?_⟩, ?_⟩
      · rw [← hs']
        exact hwf.enqueueWF index
      · rw [← hs']
        show ((s.allocator.enqueue index).toList ++ inFlight.erase index).Nodup
        rw [Queue.toList_enqueue hwf index]
        have hperm : List.Perm ((s.allocator.toList ++ [index]) ++ inFlight.erase index)
            (s.allocator.toList ++ inFlight) := by
          rw [List.append_assoc]
          exact ((List.perm_cons_erase hmem).symm.append_left s.allocator.toList).trans
            (by rfl)
        exact hperm.symm.nodup hnd
      · intro i
        rw [← hs']
        show i ∈ inFlight.erase index ↔
          (if i = index then none else s.results i).isSome = true
        have hndF : inFlight.Nodup := hnd.of_append_right
        by_cases hi : i = index
        · subst hi
          simp [hndF.mem_erase_iff]
        · rw [List.mem_erase_of_ne hi]
          simp only [if_neg hi]
          exact hiff i
      · intro tr
        simp only [List.cons_append, List.nil_append, goodTrace]
        rw [contains_eq_decide_mem]
        simp [hmem]

theorem shimRun_good : ∀ (ops : List ShimOp) {s : WebViewShim} {inFlight : List Nat}
    {res : WebViewShim × List ShimEvent},
    ShimInv s inFlight → shimRun s ops = some res → goodTrace inFlight res.2 = true := by
  intro ops
  induction ops with
  | nil =>
      intro s inFlight res _ h
      simp only [shimRun, Option.some.injEq] at h
      rw [← h]
      rfl
  | cons op ops ih =>
      intro s inFlight res hinv h
      simp only [shimRun] at h
      cases h1 : shimStep s op with
      | none => simp [h1] at h
      | some pr =>
          obtain ⟨s', evs⟩ := pr
          simp only [h1] at h
          cases h2 : shimRun s' ops with
          | none => simp [h2] at h
          | some pr' =>
              obtain ⟨s'', tr⟩ := pr'
              simp only [h2, Option.some.injEq] at h
              obtain ⟨inFlight', hinv', htr⟩ := shimStep_good hinv h1
              rw [← h]
              show goodTrace inFlight (evs ++ tr) = true
              rw [htr tr]
              exact ih hinv' h2

theorem shimInit_inv (count : Nat) : ShimInv (WebViewShim.init count) [] := by
  refine ⟨IndexAllocator.init_WF count, ?_, ?_⟩
  · show ((IndexAllocator.init count).toList ++ []).Nodup
    rw [List.append_nil, IndexAllocator.init_toList]
    exact List.nodup_range count
  · intro i
    simp [WebViewShim.init]

theorem shimInit_allocator (count : Nat) :
    (WebViewShim.init count).allocator = IndexAllocator.init count := rfl

theorem drainQueue_eq_flatMap (items : List Nat) :
    drainQueue items =
      items.flatMap fun item =>
        [LoopEvent.workExecuted item, LoopEvent.resourceReleased item] := by
  induction items with
  | nil => rfl
  | cons a l ih => simp [drainQueue, ih]

/-! ## The claims -/

/-- C1 (amended): for every inbound message that parses as a JSON object
whose `index` field is a non-negative integer representable as an unsigned
64-bit value and whose `func` field is a string, the handler looks `func`
up in the registry by exact name; if a handler is registered it is invoked
exactly once with `(index, serialized args payload)`, otherwise the message
is silently ignored (no invocation, `S_OK` returned). -/
theorem message_dispatch_invokes_registered_callback
    (callbacks : List (String × Nat)) (fields : List (String × Json))
    (index : Nat) (funcName : String)
    (hidx : fields.lookup "index" = some (Json.numInt index))
    (hbound : index < 2 ^ 64)
    (hfunc : fields.lookup "func" = some (Json.strVal funcName)) :
    webviewMessageReceived callbacks (some (Json.objVal fields)) =
      { hresult := 0
      , calls :=
          match callbacks.lookup funcName with
          | some handler =>
              [(handler, index,
                (((Json.objVal fields).objLookup "args").getD Json.null).dump)]
          | none => [] } := by
  have hcond : (0 : Int) ≤ (index : Int) ∧ (index : Int) < 2 ^ 64 :=
    ⟨Int.natCast_nonneg index, by exact_mod_cast hbound⟩
  have hu : extractIndex (Json.objVal fields) = some index := by
    unfold extractIndex
    show (fields.lookup "index").bind Json.getUint64 = some index
    rw [hidx, Option.some_bind]
    simp only [Json.getUint64]
    rw [if_pos hcond]
    simp
  have hf : extractFunc (Json.objVal fields) = some funcName := by
    unfold extractFunc
    show (fields.lookup "func").bind Json.getString = some funcName
    rw [hfunc, Option.some_bind]
    rfl
  simp only [webviewMessageReceived, hu, hf, dispatchCall]
  cases hcb : callbacks.lookup funcName <;> simp [hcb]

/-- C1 counterexample to the claim as stated: `18446744073709551616 = 2^64`
is a non-negative integer, `"f"` is registered, yet the message is ignored
(no invocation) because the value does not fit the handler's `uint64_t`. -/
theorem message_dispatch_uint64_overflow_counterexample :
    List.lookup "f" [("f", 7)] = some 7 ∧
    webviewMessageReceived [("f", 7)]
        (some (Json.objVal
          [("index", Json.numInt (2 ^ 64)), ("func", Json.strVal "f"),
           ("args", Json.arrVal [])])) =
      { hresult := 0, calls := [] } := by
  constructor
  · rfl
  · rfl

/-- C1 witness: a well-formed message with `index = 4`, `func = "hello"`
and `args = [1, true]` invokes the handler registered under `"hello"`
exactly once with the serialized args payload `[1,true]`. -/
theorem message_dispatch_invokes_registered_callback_witness :
    ([("index", Json.numInt 4), ("func", Json.strVal "hello"),
      ("args", Json.arrVal [Json.numInt 1, Json.boolVal true])].lookup "index"
        = some (Json.numInt 4)) ∧
    (4 : Nat) < 2 ^ 64 ∧
    webviewMessageReceived [("hello", 9), ("other", 5)]
        (some (Json.objVal
          [("index", Json.numInt 4), ("func", Json.strVal "hello"),
           ("args", Json.arrVal [Json.numInt 1, Json.boolVal true])])) =
      { hresult := 0, calls := [(9, 4, "[1,true]")] } := by
  refine ⟨rfl, by decide, ?_⟩
  rw [message_dispatch_invokes_registered_callback
    [("hello", 9), ("other", 5)]
    [("index", Json.numInt 4), ("func", Json.strVal "hello"),
     ("args", Json.arrVal [Json.numInt 1, Json.boolVal true])]
    4 "hello" rfl (by decide) rfl]
  rfl

/-- C2: every payload that is malformed JSON, or misses or mistypes
`index` or `func`, produces no callback invocation and no surfaced error:
the handler returns `S_OK` (0) with an empty invocation list. -/
theorem message_dispatch_malformed_silently_ignored
    (callbacks : List (String × Nat)) (msg : Option Json)
    (h : malformedPayload msg) :
    webviewMessageReceived callbacks msg = { hresult := 0, calls := [] } := by
  cases msg with
  | none => rfl
  | some document =>
      unfold malformedPayload at h
      rcases h with h | h
      · simp [webviewMessageReceived, h]
      · cases hidx : extractIndex document with
        | none => simp [webviewMessageReceived, hidx]
        | some i => simp [webviewMessageReceived, hidx, h]

/-- C2 witness: a message whose `index` is a string (mistyped) is ignored
even though its `func` names a registered callback. -/
theorem message_dispatch_malformed_silently_ignored_witness :
    malformedPayload
      (some (Json.objVal [("index", Json.strVal "x"), ("func", Json.strVal "f")])) ∧
    webviewMessageReceived [("f", 3)]
        (some (Json.objVal [("index", Json.strVal "x"), ("func", Json.strVal "f")])) =
      { hresult := 0, calls := [] } :=
  ⟨by decide,
   message_dispatch_malformed_silently_ignored [("f", 3)]
     (some (Json.objVal [("index", Json.strVal "x"), ("func", Json.strVal "f")]))
     (by decide)⟩

/-- C3: completing an in-flight correlation index performs, in order:
locate the pending pair, settle it with the host-supplied outcome, remove
it from the mapping, and only then return the index to the free list (the
final `free` event; the resulting state has the pair removed and the index
at the back of the free queue, so it cannot be reallocated before the pair
was settled and removed). -/
theorem complete_result_settles_removes_then_frees
    (s : WebViewShim) (index pair : Nat) (resolved : Bool)
    (h : s.results index = some pair) :
    s.completeResult index resolved =
      some ({ results := fun i => if i = index then none else s.results i
            , events := s.events
            , allocator := s.allocator.enqueue index
            , nextPromise := s.nextPromise },
            [ShimEvent.locate index pair, ShimEvent.settle pair resolved,
             ShimEvent.removePending index, ShimEvent.free index]) := by
  unfold WebViewShim.completeResult
  rw [h]
  rfl

/-- C3 witness: completing index 0, whose pending pair is 7, in a concrete
one-in-flight state emits locate, settle, remove, free in that order. -/
theorem complete_result_settles_removes_then_frees_witness :
    oneInFlightShim.results 0 = some 7 ∧
    (oneInFlightShim.completeResult 0 true).map Prod.snd =
      some [ShimEvent.locate 0 7, ShimEvent.settle 7 true,
            ShimEvent.removePending 0, ShimEvent.free 0] := by
  refine ⟨rfl, ?_⟩
  rw [complete_result_settles_removes_then_frees oneInFlightShim 0 7 true rfl]
  rfl

/-- C4: the shim's allocator is seeded with the full domain
`[0, MAX_RESULTS)` in FIFO order at construction, and every successful
(pool-non-exhausting) run of invokes and completions yields a trace in
which no index is allocated while already in flight (no two simultaneously
in-flight calls share an index) and every free is of an in-flight index
(each index is returned to the free list exactly once, at settlement). -/
theorem allocator_seeded_and_no_double_allocation :
    (WebViewShim.init MAX_RESULTS).allocator.toList = List.range MAX_RESULTS ∧
    ∀ (count : Nat) (ops : List ShimOp) (tr : List ShimEvent),
      shimTrace (WebViewShim.init count) ops = some tr →
      goodTrace [] tr = true := by
  constructor
  · rw [shimInit_allocator]
    exact IndexAllocator.init_toList MAX_RESULTS
  · intro count ops tr h
    unfold shimTrace at h
    cases hr : shimRun (WebViewShim.init count) ops with
    | none => rw [hr] at h; exact Option.noConfusion h
    | some res =>
        rw [hr] at h
        simp only [Option.map_some', Option.some.injEq] at h
        rw [← h]
        exact shimRun_good ops (shimInit_inv count) hr

/-- C4 witness: a run of three invokes with one completion on a pool of
size 3 allocates 0, 1, frees 0, then allocates 2; its trace satisfies the
allocation discipline. -/
theorem allocator_seeded_and_no_double_allocation_witness :
    shimTrace (WebViewShim.init 3)
        [ShimOp.invoke "first", ShimOp.invoke "second", ShimOp.complete 0 true,
         ShimOp.invoke "third"] =
      some [ShimEvent.alloc 0, ShimEvent.post 0 "first", ShimEvent.alloc 1,
            ShimEvent.post 1 "second", ShimEvent.locate 0 0, ShimEvent.settle 0 true,
            ShimEvent.removePending 0, ShimEvent.free 0, ShimEvent.alloc 2,
            ShimEvent.post 2 "third"] ∧
    goodTrace []
        [ShimEvent.alloc 0, ShimEvent.post 0 "first", ShimEvent.alloc 1,
         ShimEvent.post 1 "second", ShimEvent.locate 0 0, ShimEvent.settle 0 true,
         ShimEvent.removePending 0, ShimEvent.free 0, ShimEvent.alloc 2,
         ShimEvent.post 2 "third"] = true :=
  ⟨by decide,
   allocator_seeded_and_no_double_allocation.2 3
     [ShimOp.invoke "first", ShimOp.invoke "second", ShimOp.complete 0 true,
      ShimOp.invoke "third"]
     [ShimEvent.alloc 0, ShimEvent.post 0 "first", ShimEvent.alloc 1,
      ShimEvent.post 1 "second", ShimEvent.locate 0 0, ShimEvent.settle 0 true,
      ShimEvent.removePending 0, ShimEvent.free 0, ShimEvent.alloc 2,
      ShimEvent.post 2 "third"]
     (by decide)⟩

/-- C5: in any run of navigation-completed events, only the first shows,
updates, focuses the window, marks the controller visible and sizes it to
the client rectangle; every subsequent event performs no action. -/
theorem navigation_completed_single_show (n : Nat) :
    runNavigationEvents false (n + 1) =
      firstNavigationActions :: List.replicate n ([] : List NavAction) := by
  have htrue : ∀ m : Nat, runNavigationEvents true m = List.replicate m [] := by
    intro m
    induction m with
    | zero => rfl
    | succ k ih =>
        simp [runNavigationEvents, webviewNavigationComplete, ih, List.replicate_succ]
  simp [runNavigationEvents, webviewNavigationComplete, htrue n]

/-- C6: in an iteration with no pending native message the work queue is
drained entirely in FIFO order — each item executed then its resource
released — and only then is the registered idle callback invoked, exactly
once; in an iteration with a pending native message neither idle nor any
work item runs; a quit message exits the loop. -/
theorem run_loop_drains_work_then_idles (idle : Option Nat) (queue : List Nat)
    (inp : LoopInput) :
    (inp.pending = none →
      loopIteration idle queue inp =
        (true, [],
         ((queue ++ inp.arrivedWork).flatMap fun item =>
            [LoopEvent.workExecuted item, LoopEvent.resourceReleased item]) ++
           match idle with
           | some _ => [LoopEvent.idleInvoked]
           | none => [])) ∧
    (∀ m, inp.pending = some m →
      LoopEvent.idleInvoked ∉ (loopIteration idle queue inp).2.2 ∧
      ∀ item, LoopEvent.workExecuted item ∉ (loopIteration idle queue inp).2.2) ∧
    (inp.pending = some NativeMsg.quit →
      ∀ inps, edgeRun idle queue (inp :: inps) = [[]]) := by
  obtain ⟨pending, arrived⟩ := inp
  refine ⟨?_, ?_, ?_⟩
  · intro hp
    simp only at hp
    subst hp
    simp [loopIteration, drainQueue_eq_flatMap]
  · intro m hp
    simp only at hp
    subst hp
    cases m with
    | quit => simp [loopIteration]
    | windowMsg msgId hasHwnd =>
        cases hasHwnd <;> simp [loopIteration]
  · intro hp inps
    simp only at hp
    subst hp
    simp [edgeRun, loopIteration]

/-- C6 witness: with idle registered, items [1,2] queued and item 3 newly
arrived, an empty-native-queue iteration drains 1, 2, 3 in FIFO order
(execute then release each) and then idles once; a quit iteration emits
nothing and ends the run. -/
theorem run_loop_drains_work_then_idles_witness :
    loopIteration (some 5) [1, 2] ⟨none, [3]⟩ =
      (true, [],
       [LoopEvent.workExecuted 1, LoopEvent.resourceReleased 1,
        LoopEvent.workExecuted 2, LoopEvent.resourceReleased 2,
        LoopEvent.workExecuted 3, LoopEvent.resourceReleased 3,
        LoopEvent.idleInvoked]) ∧
    edgeRun (some 5) [1, 2] [⟨some NativeMsg.quit, []⟩, ⟨none, []⟩] = [[]] := by
  constructor
  · rw [(run_loop_drains_work_then_idles (some 5) [1, 2] ⟨none, [3]⟩).1 rfl]
    rfl
  · exact (run_loop_drains_work_then_idles (some 5) [1, 2]
      ⟨some NativeMsg.quit, []⟩).2.2 rfl [⟨none, []⟩]

/-- C7: `Edge::run` navigates to strings starting with `http://` or
`https://` as-is; any other string is resolved against the current working
directory and navigated to as a `file:///` URL. -/
theorem run_url_classification (cwd url : String) :
    ((strStartsWith url "http://" = true ∨ strStartsWith url "https://" = true) →
      navigationTarget cwd url = url) ∧
    (strStartsWith url "http://" = false → strStartsWith url "https://" = false →
      navigationTarget cwd url = "file:///" ++ filesystemConcat cwd url) := by
  constructor
  · intro h
    unfold navigationTarget
    rcases h with h | h <;> simp [h]
  · intro h1 h2
    simp [navigationTarget, h1, h2]

/-- C7 witness: `"https://example.com"` is navigated to as-is, and
`"index.html"` resolves to `file:///<cwd>/index.html` for cwd `C:/work`. -/
theorem run_url_classification_witness :
    (strStartsWith "https://example.com" "http://" = true ∨
      strStartsWith "https://example.com" "https://" = true) ∧
    navigationTarget "C:/work" "https://example.com" = "https://example.com" ∧
    strStartsWith "index.html" "http://" = false ∧
    strStartsWith "index.html" "https://" = false ∧
    navigationTarget "C:/work" "index.html" = "file:///C:/work/index.html" := by
  refine ⟨Or.inr (by decide), ?_, by decide, by decide, ?_⟩
  · exact (run_url_classification "C:/work" "https://example.com").1 (Or.inr (by decide))
  · exact ((run_url_classification "C:/work" "index.html").2 (by decide) (by decide)).trans
      (by decide)

/-- C8 counterexample to the claim as stated: `set_max_size(2^30, 2^30)`
at scale 100 is a non-zero pair, so the maximize box is disabled, but the
wrapping `uint32_t` multiplication stores `2^30 * 100 mod 2^32 = 0` for
both dimensions, and the size-constraints query writes no max-track
values (the incoming 111, 222 survive) instead of the claimed scaled
maxima. -/
theorem max_size_wrap_counterexample :
    ¬((2 : Nat) ^ 30 = 0 ∧ (2 : Nat) ^ 30 = 0) ∧
    (set_max_size 100 sampleWindowState (2 ^ 30) (2 ^ 30)).maximizeBox = false ∧
    (set_max_size 100 sampleWindowState (2 ^ 30) (2 ^ 30)).maxWidth = 0 ∧
    (set_max_size 100 sampleWindowState (2 ^ 30) (2 ^ 30)).maxHeight = 0 ∧
    wmGetMinMaxInfo (set_max_size 100 sampleWindowState (2 ^ 30) (2 ^ 30))
        sampleMinMaxInfo =
      { minTrackX := 300, minTrackY := 200, maxTrackX := 111, maxTrackY := 222 } := by
  refine ⟨by decide, by decide, by decide, by decide, by decide⟩

/-- C8 (amended): `set_max_size(0,0)` re-enables the maximize box and
makes the size-constraints query leave the incoming max-track values
untouched; any non-zero pair disables the maximize box, and the query
writes the stored maxima — computed in wrapping `uint32_t` arithmetic as
`width*scale/100`, `height*scale/100` — whenever that stored pair is
non-zero, while a pair whose wrapped scaled values are both zero leaves
the max track unwritten; the minima are written unconditionally in every
case. -/
theorem max_size_sentinel_behavior (scale : Nat) (s : EdgeWindowState)
    (mmi : MinMaxInfo) (w h : Nat) :
    ((set_max_size scale s 0 0).maximizeBox = true ∧
      wmGetMinMaxInfo (set_max_size scale s 0 0) mmi =
        { mmi with minTrackX := s.minWidth, minTrackY := s.minHeight }) ∧
    (¬(w = 0 ∧ h = 0) →
      (set_max_size scale s w h).maximizeBox = false ∧
      (¬(scaleU32 scale w = 0 ∧ scaleU32 scale h = 0) →
        wmGetMinMaxInfo (set_max_size scale s w h) mmi =
          { minTrackX := s.minWidth, minTrackY := s.minHeight
          , maxTrackX := scaleU32 scale w, maxTrackY := scaleU32 scale h }) ∧
      (scaleU32 scale w = 0 ∧ scaleU32 scale h = 0 →
        wmGetMinMaxInfo (set_max_size scale s w h) mmi =
          { mmi with minTrackX := s.minWidth, minTrackY := s.minHeight })) := by
  constructor
  · by_cases hb : s.maximizeBox <;>
      simp [set_max_size, wmGetMinMaxInfo, scaleU32, hb]
  · intro hwh
    refine ⟨?_, ?_, ?_⟩
    · by_cases hb : s.maximizeBox <;> simp [set_max_size, hb, hwh]
    · intro hnz
      by_cases hb : s.maximizeBox <;>
        simp [set_max_size, wmGetMinMaxInfo, hb, hwh, hnz, Prod.ext_iff]
    · intro hz
      by_cases hb : s.maximizeBox <;>
        simp [set_max_size, wmGetMinMaxInfo, hb, hwh, hz.1, hz.2, Prod.ext_iff]

/-- C8 witness: at scale 100, `set_max_size(0,0)` leaves the maximize box
enabled and the query preserves the incoming max track (111, 222) while
writing the stored minima (300, 200); `set_max_size(800,600)` disables the
box, stores the non-wrapping pair (800, 600), and the query writes it. -/
theorem max_size_sentinel_behavior_witness :
    (set_max_size 100 sampleWindowState 0 0).maximizeBox = true ∧
    wmGetMinMaxInfo (set_max_size 100 sampleWindowState 0 0) sampleMinMaxInfo =
      { minTrackX := 300, minTrackY := 200, maxTrackX := 111, maxTrackY := 222 } ∧
    (set_max_size 100 sampleWindowState 800 600).maximizeBox = false ∧
    wmGetMinMaxInfo (set_max_size 100 sampleWindowState 800 600) sampleMinMaxInfo =
      { minTrackX := 300, minTrackY := 200, maxTrackX := 800, maxTrackY := 600 } := by
  have hmain := max_size_sentinel_behavior 100 sampleWindowState sampleMinMaxInfo 800 600
  refine ⟨hmain.1.1, ?_, (hmain.2 (by decide)).1, ?_⟩
  · rw [hmain.1.2]
    rfl
  · rw [((hmain.2 (by decide)).2.1 (by decide))]
    rfl

/-- C9: evaluation of the code at the failing input — `App::bind` (whose
body is an empty stub, the `webview_bind` call being commented out)
registers nothing, so a subsequent well-formed message naming the bound
function invokes no callback. -/
theorem app_bind_registers_nothing :
    App.bind [] "hello" 9 = [] ∧
    webviewMessageReceived (App.bind [] "hello" 9)
        (some (Json.objVal
          [("index", Json.numInt 0), ("func", Json.strVal "hello"),
           ("args", Json.arrVal [])])) =
      { hresult := 0, calls := [] } := by
  constructor
  · rfl
  · rfl

/-- C10: on every construction, independent of `debug_mode`, the engine
environment is created with the additional browser argument
`--disable-web-security`. -/
theorem environment_always_disables_web_security
    (appData appName : String) (debug_mode : Bool) :
    (edgeEnvironmentConfig appData appName debug_mode).browserArguments =
      "--disable-web-security" := rfl

end libwebview
